import Mathlib

/-!
Verification of the inky-soup upload server core against its specification.

The development shallowly embeds the Rust modules
`src/upload-server/src/image_locks.rs`, `src/upload-server/src/flash_queue.rs`,
`src/upload-server/src/cache_worker.rs` and `src/upload-server/src/metadata.rs`.
Machine integers (`u64` ids and millisecond timestamps, `u16` rotations) are
modelled as `Nat`: the only arithmetic is `+ 1` on the id counter and
comparisons/subtraction on timestamps, where wraparound would require more than
`2 ^ 64` operations in one process and is unreachable.  `Instant`/`SystemTime`
reads are made explicit `now` parameters; the asynchronous mutexes serialise
every operation, so each Rust function becomes a pure state transformer.
-/

set_option autoImplicit false

namespace InkySoup

/-! ## Image locks (`image_locks.rs`) -/

/-- A lock on a specific image: owning session and absolute expiry instant
(seconds, since `Duration::from_secs` is added to an `Instant`). -/
structure ImageLock where
  session_id : String
  expires_at : Nat
deriving DecidableEq

/-- Default lock duration (`LOCK_DURATION_SECS`); `get_lock_duration_secs`
returns this unless overridden by an environment variable, so the operations
below take the duration as a parameter `dur`. -/
def LOCK_DURATION_SECS : Nat := 30

/-- The `HashMap<String, ImageLock>` state, modelled as an association list
with at most one entry per key (maintained by `insertAL`/`eraseAL`). -/
abbrev LockMap := List (String × ImageLock)

/-- Embeds `HashMap::get`: the entry stored for `k`. -/
def lookupAL : LockMap → String → Option ImageLock
  | [], _ => none
  | p :: rest, k => if p.1 = k then some p.2 else lookupAL rest k

/-- Embeds `HashMap::remove`: drop the entry stored under `k`. -/
def eraseAL : LockMap → String → LockMap
  | [], _ => []
  | p :: rest, k => if p.1 = k then eraseAL rest k else p :: eraseAL rest k

/-- Embeds `HashMap::insert`: store `v` under `k`, replacing any previous entry. -/
def insertAL (m : LockMap) (k : String) (v : ImageLock) : LockMap :=
  (k, v) :: eraseAL m k

/-- Embeds `locks_map.retain(|_, lock| lock.expires_at > now)`: purge expired locks. -/
def purgeExpired (m : LockMap) (now : Nat) : LockMap :=
  m.filter (fun p => decide (now < p.2.expires_at))

/-- Embeds `try_acquire_lock` from `image_locks.rs`: purge expired entries, then
refresh an own lock, deny a foreign lock, deny a `refresh_only` miss, or
freshly acquire.  Returns the `Ok` payload together with the updated map. -/
def try_acquire_lock (locks : LockMap) (filename session_id : String)
    (refresh_only : Bool) (now dur : Nat) : Bool × LockMap :=
  let locks_map := purgeExpired locks now
  match lookupAL locks_map filename with
  | some existing_lock =>
      if existing_lock.session_id = session_id then
        (true, insertAL locks_map filename ⟨session_id, now + dur⟩)
      else
        (false, locks_map)
  | none =>
      if refresh_only then
        (false, locks_map)
      else
        (true, insertAL locks_map filename ⟨session_id, now + dur⟩)

/-- Embeds `release_lock` from `image_locks.rs`: only the owning session may release;
an absent key is an idempotent success.  No purge happens here. -/
def release_lock (locks : LockMap) (filename session_id : String) :
    Bool × LockMap :=
  match lookupAL locks filename with
  | some existing_lock =>
      if existing_lock.session_id = session_id then
        (true, eraseAL locks filename)
      else
        (false, locks)
  | none =>
      (true, locks)

theorem lookupAL_insert_self (m : LockMap) (k : String) (v : ImageLock) :
    lookupAL (insertAL m k v) k = some v := by
  simp [lookupAL, insertAL]

theorem lookupAL_erase_self (m : LockMap) (k : String) :
    lookupAL (eraseAL m k) k = none := by
  induction m with
  | nil => rfl
  | cons p rest ih =>
      by_cases hp : p.1 = k
      · simpa [eraseAL, hp] using ih
      · simpa [eraseAL, lookupAL, hp] using ih

theorem lookupAL_erase_ne (m : LockMap) (k k' : String) (h : k' ≠ k) :
    lookupAL (eraseAL m k) k' = lookupAL m k' := by
  induction m with
  | nil => rfl
  | cons p rest ih =>
      by_cases hp : p.1 = k
      · have hp' : ¬p.1 = k' := fun hk => h ((hp.symm.trans hk).symm)
        simp only [eraseAL, lookupAL, if_pos hp, if_neg hp']
        exact ih
      · simp only [eraseAL, lookupAL, if_neg hp]
        by_cases hk' : p.1 = k'
        · simp only [lookupAL, if_pos hk']
        · simp only [lookupAL, if_neg hk']
          exact ih

/-- A concrete lock map used to instantiate the lock theorems. -/
def demoLocks : LockMap :=
  [("img.png", ⟨"s1", 100⟩), ("other.png", ⟨"s9", 10⟩)]

/-- C1: after `try_acquire_lock` purges expired entries, an unexpired entry
for the key owned by the caller yields `granted` with the expiry replaced by
`now + dur` (the configured duration, default `LOCK_DURATION_SECS = 30`);
an unexpired entry owned by a different session yields `denied` with the
purged map returned untouched, the entry still in place. -/
theorem try_acquire_lock_existing (locks : LockMap)
    (filename session_id : String) (refresh_only : Bool) (now dur : Nat)
    (lk : ImageLock)
    (h : lookupAL (purgeExpired locks now) filename = some lk) :
    (lk.session_id = session_id →
        (try_acquire_lock locks filename session_id refresh_only now dur).1 = true ∧
        (try_acquire_lock locks filename session_id refresh_only now dur).2 =
          insertAL (purgeExpired locks now) filename ⟨session_id, now + dur⟩ ∧
        lookupAL (try_acquire_lock locks filename session_id refresh_only now dur).2
          filename = some ⟨session_id, now + dur⟩) ∧
    (lk.session_id ≠ session_id →
        (try_acquire_lock locks filename session_id refresh_only now dur).1 = false ∧
        (try_acquire_lock locks filename session_id refresh_only now dur).2 =
          purgeExpired locks now ∧
        lookupAL (try_acquire_lock locks filename session_id refresh_only now dur).2
          filename = some lk) ∧
    LOCK_DURATION_SECS = 30 := by
  refine ⟨fun hown => ?_, fun hother => ?_, rfl⟩
  · have heq : try_acquire_lock locks filename session_id refresh_only now dur =
        (true, insertAL (purgeExpired locks now) filename ⟨session_id, now + dur⟩) := by
      simp [try_acquire_lock, h, hown]
    rw [heq]
    exact ⟨rfl, rfl, lookupAL_insert_self _ _ _⟩
  · have heq : try_acquire_lock locks filename session_id refresh_only now dur =
        (false, purgeExpired locks now) := by
      simp [try_acquire_lock, h, hother]
    rw [heq]
    exact ⟨rfl, rfl, h⟩

theorem try_acquire_lock_existing_witness :
    (try_acquire_lock demoLocks "img.png" "s1" false 50 30).1 = true ∧
    (try_acquire_lock demoLocks "img.png" "s2" false 50 30).1 = false := by
  constructor
  · exact ((try_acquire_lock_existing demoLocks "img.png" "s1" false 50 30
      ⟨"s1", 100⟩ (by decide)).1 rfl).1
  · exact ((try_acquire_lock_existing demoLocks "img.png" "s2" false 50 30
      ⟨"s1", 100⟩ (by decide)).2.1 (by decide)).1

/-- C2: with no unexpired entry for the key (any pre-existing lock having been
purged first), a `refresh_only` call is denied and the resulting map is
exactly the purged map, holding no entry for the key: a keepalive never
creates a lock. -/
theorem try_acquire_lock_refresh_only_miss (locks : LockMap)
    (filename session_id : String) (now dur : Nat)
    (h : lookupAL (purgeExpired locks now) filename = none) :
    (try_acquire_lock locks filename session_id true now dur).1 = false ∧
    (try_acquire_lock locks filename session_id true now dur).2 =
      purgeExpired locks now ∧
    lookupAL (try_acquire_lock locks filename session_id true now dur).2
      filename = none := by
  have heq : try_acquire_lock locks filename session_id true now dur =
      (false, purgeExpired locks now) := by
    simp [try_acquire_lock, h]
  rw [heq]
  exact ⟨rfl, rfl, h⟩

theorem try_acquire_lock_refresh_only_miss_witness :
    (try_acquire_lock demoLocks "other.png" "s9" true 50 30).1 = false ∧
    lookupAL (try_acquire_lock demoLocks "other.png" "s9" true 50 30).2
      "other.png" = none := by
  have h := try_acquire_lock_refresh_only_miss demoLocks "other.png" "s9" 50 30
    (by decide)
  exact ⟨h.1, h.2.2⟩

/-- C3: `release_lock` on an absent key returns `true` with the map unchanged;
on a key owned by the caller it returns `true`, removes exactly that entry and
leaves every other key's entry untouched; on a key owned by another session it
returns `false` with the map unchanged. -/
theorem release_lock_spec (locks : LockMap) (filename session_id : String) :
    (lookupAL locks filename = none →
        release_lock locks filename session_id = (true, locks)) ∧
    (∀ lk, lookupAL locks filename = some lk →
      (lk.session_id = session_id →
          (release_lock locks filename session_id).1 = true ∧
          lookupAL (release_lock locks filename session_id).2 filename = none ∧
          ∀ k, k ≠ filename →
            lookupAL (release_lock locks filename session_id).2 k =
              lookupAL locks k) ∧
      (lk.session_id ≠ session_id →
          release_lock locks filename session_id = (false, locks))) := by
  refine ⟨fun hnone => ?_, fun lk hsome => ⟨fun hown => ?_, fun hother => ?_⟩⟩
  · simp [release_lock, hnone]
  · have heq : release_lock locks filename session_id =
        (true, eraseAL locks filename) := by
      simp [release_lock, hsome, hown]
    rw [heq]
    exact ⟨rfl, lookupAL_erase_self locks filename,
      fun k hk => lookupAL_erase_ne locks filename k hk⟩
  · simp [release_lock, hsome, hother]

theorem release_lock_spec_witness :
    release_lock demoLocks "gone.png" "s1" = (true, demoLocks) ∧
    (release_lock demoLocks "img.png" "s1").1 = true ∧
    lookupAL (release_lock demoLocks "img.png" "s1").2 "img.png" = none ∧
    lookupAL (release_lock demoLocks "img.png" "s1").2 "other.png" =
      lookupAL demoLocks "other.png" ∧
    release_lock demoLocks "img.png" "s2" = (false, demoLocks) := by
  have habsent := (release_lock_spec demoLocks "gone.png" "s1").1 (by decide)
  have howner := ((release_lock_spec demoLocks "img.png" "s1").2
    ⟨"s1", 100⟩ (by decide)).1 rfl
  have hother := ((release_lock_spec demoLocks "img.png" "s2").2
    ⟨"s1", 100⟩ (by decide)).2 (by decide)
  exact ⟨habsent, howner.1, howner.2.1, howner.2.2 "other.png" (by decide), hother⟩

/-! ## Flash queue (`flash_queue.rs`) -/

/-- Status of a flash job. -/
inductive FlashJobStatus where
  | Queued
  | Flashing
  | Completed
  | Failed
deriving DecidableEq

/-- How long a finished job stays queryable, in milliseconds. -/
def FINISHED_JOB_RETENTION_MS : Nat := 30000

/-- A single flash job.  Timestamps are Unix milliseconds. -/
structure FlashJob where
  job_id : Nat
  filename : String
  dithered_path : String
  flash_twice : Bool
  rotation_degrees : Nat
  status : FlashJobStatus
  created_at : Nat
  started_at : Option Nat
  finished_at : Option Nat
  error_message : Option String
deriving DecidableEq

/-- The flash queue and current job state.  `VecDeque`s become lists whose
head is the front. -/
structure FlashQueue where
  current_job : Option FlashJob
  queue : List FlashJob
  recent_jobs : List FlashJob
  next_job_id : Nat
deriving DecidableEq

/-- Embeds `FlashQueue::new`. -/
def FlashQueue.new : FlashQueue :=
  { current_job := none, queue := [], recent_jobs := [], next_job_id := 1 }

/-- Embeds `FlashQueue::enqueue`: allocate the next id, build a `Queued` job stamped
with the creation time `now`, append it at the tail, return the id. -/
def FlashQueue.enqueue (q : FlashQueue) (filename dithered_path : String)
    (flash_twice : Bool) (rotation_degrees : Nat) (now : Nat) :
    Nat × FlashQueue :=
  let job_id := q.next_job_id
  let job : FlashJob :=
    { job_id := job_id
      filename := filename
      dithered_path := dithered_path
      flash_twice := flash_twice
      rotation_degrees := rotation_degrees
      status := FlashJobStatus.Queued
      created_at := now
      started_at := none
      finished_at := none
      error_message := none }
  (job_id, { q with queue := q.queue ++ [job], next_job_id := q.next_job_id + 1 })

/-- The tail of `FlashQueue::dequeue` once the current slot is settled:
`self.queue.pop_front().map(|mut job| ...)`. -/
def FlashQueue.popWaiting (q : FlashQueue) (now : Nat) :
    Option FlashJob × FlashQueue :=
  match q.queue with
  | [] => (none, q)
  | job :: rest =>
      let started :=
        { job with status := FlashJobStatus.Flashing, started_at := some now }
      (some started, { q with queue := rest, current_job := some started })

/-- Embeds `FlashQueue::dequeue`: a `Flashing`/`Queued` current job blocks the queue;
a terminal current job is pushed onto `recent_jobs` and the slot cleared;
then the waiting-list head (if any) is started and installed as current. -/
def FlashQueue.dequeue (q : FlashQueue) (now : Nat) :
    Option FlashJob × FlashQueue :=
  match q.current_job with
  | some current =>
      match current.status with
      | FlashJobStatus.Flashing => (none, q)
      | FlashJobStatus.Queued => (none, q)
      | FlashJobStatus.Completed =>
          FlashQueue.popWaiting
            { q with recent_jobs := q.recent_jobs ++ [current],
                     current_job := none } now
      | FlashJobStatus.Failed =>
          FlashQueue.popWaiting
            { q with recent_jobs := q.recent_jobs ++ [current],
                     current_job := none } now
  | none => FlashQueue.popWaiting q now

/-- Embeds `FlashQueue::mark_completed`: mutate the current job in place, if any. -/
def FlashQueue.mark_completed (q : FlashQueue) (now : Nat) : FlashQueue :=
  match q.current_job with
  | some job =>
      let done :=
        { job with status := FlashJobStatus.Completed, finished_at := some now }
      { q with current_job := some done }
  | none => q

/-- Embeds `FlashQueue::mark_failed`: mutate the current job in place, if any. -/
def FlashQueue.mark_failed (q : FlashQueue) (error : String) (now : Nat) :
    FlashQueue :=
  match q.current_job with
  | some job =>
      let failed :=
        { job with status := FlashJobStatus.Failed,
                   finished_at := some now,
                   error_message := some error }
      { q with current_job := some failed }
  | none => q

/-- The per-job expiry test of `prune_recent_jobs`: a missing `finished_at`
counts as expired. -/
def jobExpired (now : Nat) (job : FlashJob) : Bool :=
  match job.finished_at with
  | some finished_at =>
      decide (now > finished_at) &&
        decide (now - finished_at > FINISHED_JOB_RETENTION_MS)
  | none => true

/-- The `while let` loop of `FlashQueue::prune_recent_jobs`: pop expired
front entries, stopping at the first unexpired one. -/
def pruneRecentList (now : Nat) : List FlashJob → List FlashJob
  | [] => []
  | job :: rest =>
      if jobExpired now job then pruneRecentList now rest else job :: rest

/-- Embeds `FlashQueue::prune_recent_jobs`. -/
def FlashQueue.prune_recent_jobs (q : FlashQueue) (now : Nat) : FlashQueue :=
  { q with recent_jobs := pruneRecentList now q.recent_jobs }

/-- Embeds `FlashQueue::clear_current_if_finished`: prune the retention list, then
drop a terminal current job whose retention window has elapsed. -/
def FlashQueue.clear_current_if_finished (q : FlashQueue) (now : Nat) :
    FlashQueue :=
  let q1 := q.prune_recent_jobs now
  match q1.current_job with
  | some job =>
      if job.status = FlashJobStatus.Completed ∨
          job.status = FlashJobStatus.Failed then
        match job.finished_at with
        | some finished_at =>
            if now > finished_at ∧
                now - finished_at > FINISHED_JOB_RETENTION_MS then
              { q1 with current_job := none }
            else q1
        | none => q1
      else q1
  | none => q1

/-- Embeds `FlashQueue::get_position`: 0 for the current job, 1-based rank for
waiting jobs. -/
def FlashQueue.get_position (q : FlashQueue) (job_id : Nat) : Option Nat :=
  match q.current_job with
  | some current =>
      if current.job_id = job_id then some 0
      else (q.queue.findIdx? (fun job => job.job_id == job_id)).map (· + 1)
  | none => (q.queue.findIdx? (fun job => job.job_id == job_id)).map (· + 1)

/-- Embeds `FlashQueue::get_current_job`. -/
def FlashQueue.get_current_job (q : FlashQueue) : Option FlashJob :=
  q.current_job

/-- Embeds `FlashQueue::get_queued_jobs`. -/
def FlashQueue.get_queued_jobs (q : FlashQueue) : List FlashJob :=
  q.queue

/-- Embeds `FlashQueue::find_job`: current slot first, then the waiting list, then
the retention list. -/
def FlashQueue.find_job (q : FlashQueue) (job_id : Nat) : Option FlashJob :=
  match q.current_job with
  | some current =>
      if current.job_id = job_id then some current
      else
        match q.queue.find? (fun job => job.job_id == job_id) with
        | some job => some job
        | none => q.recent_jobs.find? (fun job => job.job_id == job_id)
  | none =>
      match q.queue.find? (fun job => job.job_id == job_id) with
      | some job => some job
      | none => q.recent_jobs.find? (fun job => job.job_id == job_id)

/-- All jobs held by the queue structure, in `find_job` search order. -/
def allJobs (q : FlashQueue) : List FlashJob :=
  q.current_job.toList ++ q.queue ++ q.recent_jobs

/-- Number of jobs in `Flashing` status anywhere in the structure. -/
def flashingCount (q : FlashQueue) : Nat :=
  (allJobs q).countP (fun j => j.status == FlashJobStatus.Flashing)

/-- Model of `dequeue` transcribed from the specification text: a `Flashing`
or `Queued` current job blocks and nothing changes; a `Completed` or `Failed`
current job is moved to the retention list and the slot cleared; then, the
slot being empty, the waiting-list head is popped, set to `Flashing`, stamped
with its start time, installed as current and returned — or nothing is
returned when the waiting list is empty. -/
def dequeueSpecModel (q : FlashQueue) (now : Nat) :
    Option FlashJob × FlashQueue :=
  match q.current_job with
  | some current =>
      if current.status = FlashJobStatus.Flashing ∨
          current.status = FlashJobStatus.Queued then
        (none, q)
      else
        let cleared :=
          { q with recent_jobs := q.recent_jobs ++ [current],
                   current_job := none }
        match cleared.queue with
        | [] => (none, cleared)
        | job :: rest =>
            let started :=
              { job with status := FlashJobStatus.Flashing,
                         started_at := some now }
            (some started,
              { cleared with queue := rest, current_job := some started })
  | none =>
      match q.queue with
      | [] => (none, q)
      | job :: rest =>
          let started :=
            { job with status := FlashJobStatus.Flashing,
                       started_at := some now }
          (some started, { q with queue := rest, current_job := some started })

theorem countP_flashing_eq_zero (l : List FlashJob)
    (h : ∀ j ∈ l, j.status ≠ FlashJobStatus.Flashing) :
    l.countP (fun j => j.status == FlashJobStatus.Flashing) = 0 := by
  rw [List.countP_eq_zero]
  intro j hj
  simpa using h j hj

/-- C5: `dequeue` coincides with the specification's description, and — when
the waiting list holds only `Queued` jobs and the retention list holds no
`Flashing` job, as every reachable state does — the resulting state contains
at most one job in `Flashing` status. -/
theorem dequeue_spec (q : FlashQueue) (now : Nat) :
    q.dequeue now = dequeueSpecModel q now ∧
    ((∀ j ∈ q.queue, j.status = FlashJobStatus.Queued) →
      (∀ j ∈ q.recent_jobs, j.status ≠ FlashJobStatus.Flashing) →
      flashingCount (q.dequeue now).2 ≤ 1) := by
  constructor
  · match hc : q.current_job with
    | none =>
        match hq : q.queue with
        | [] =>
            simp [FlashQueue.dequeue, dequeueSpecModel, FlashQueue.popWaiting,
              hc, hq]
        | job :: rest =>
            simp [FlashQueue.dequeue, dequeueSpecModel, FlashQueue.popWaiting,
              hc, hq]
    | some current =>
        match hs : current.status with
        | FlashJobStatus.Flashing =>
            simp [FlashQueue.dequeue, dequeueSpecModel, hc, hs]
        | FlashJobStatus.Queued =>
            simp [FlashQueue.dequeue, dequeueSpecModel, hc, hs]
        | FlashJobStatus.Completed =>
            match hq : q.queue with
            | [] =>
                simp [FlashQueue.dequeue, dequeueSpecModel,
                  FlashQueue.popWaiting, hc, hs, hq]
            | job :: rest =>
                simp [FlashQueue.dequeue, dequeueSpecModel,
                  FlashQueue.popWaiting, hc, hs, hq]
        | FlashJobStatus.Failed =>
            match hq : q.queue with
            | [] =>
                simp [FlashQueue.dequeue, dequeueSpecModel,
                  FlashQueue.popWaiting, hc, hs, hq]
            | job :: rest =>
                simp [FlashQueue.dequeue, dequeueSpecModel,
                  FlashQueue.popWaiting, hc, hs, hq]
  · intro hq hr
    have hqz : ∀ l : List FlashJob, (∀ j ∈ l, j.status = FlashJobStatus.Queued) →
        l.countP (fun j => j.status == FlashJobStatus.Flashing) = 0 := by
      intro l hl
      exact countP_flashing_eq_zero l (fun j hj => by simp [hl j hj])
    have hrz := countP_flashing_eq_zero q.recent_jobs hr
    match hc : q.current_job with
    | none =>
        match hmm : q.queue with
        | [] =>
            simp [FlashQueue.dequeue, FlashQueue.popWaiting, hc, hmm,
              flashingCount, allJobs, List.countP_append, hrz]
        | job :: rest =>
            have hrest : rest.countP
                (fun j => j.status == FlashJobStatus.Flashing) = 0 :=
              hqz rest (fun j hj => hq j (by simp [hmm, hj]))
            simp [FlashQueue.dequeue, FlashQueue.popWaiting, hc, hmm,
              flashingCount, allJobs, List.countP_append, hrz, hrest,
              List.countP_cons]
    | some current =>
        match hs : current.status with
        | FlashJobStatus.Flashing =>
            simp [FlashQueue.dequeue, hc, hs, flashingCount, allJobs,
              List.countP_append, hrz, hqz q.queue hq, List.countP_cons]
        | FlashJobStatus.Queued =>
            simp [FlashQueue.dequeue, hc, hs, flashingCount, allJobs,
              List.countP_append, hrz, hqz q.queue hq, List.countP_cons, hs]
        | FlashJobStatus.Completed =>
            match hmm : q.queue with
            | [] =>
                simp [FlashQueue.dequeue, FlashQueue.popWaiting, hc, hs, hmm,
                  flashingCount, allJobs, List.countP_append, hrz,
                  List.countP_cons]
            | job :: rest =>
                have hrest : rest.countP
                    (fun j => j.status == FlashJobStatus.Flashing) = 0 :=
                  hqz rest (fun j hj => hq j (by simp [hmm, hj]))
                simp [FlashQueue.dequeue, FlashQueue.popWaiting, hc, hs, hmm,
                  flashingCount, allJobs, List.countP_append, hrz, hrest,
                  List.countP_cons]
        | FlashJobStatus.Failed =>
            match hmm : q.queue with
            | [] =>
                simp [FlashQueue.dequeue, FlashQueue.popWaiting, hc, hs, hmm,
                  flashingCount, allJobs, List.countP_append, hrz,
                  List.countP_cons]
            | job :: rest =>
                have hrest : rest.countP
                    (fun j => j.status == FlashJobStatus.Flashing) = 0 :=
                  hqz rest (fun j hj => hq j (by simp [hmm, hj]))
                simp [FlashQueue.dequeue, FlashQueue.popWaiting, hc, hs, hmm,
                  flashingCount, allJobs, List.countP_append, hrz, hrest,
                  List.countP_cons]

/-- A concrete waiting job used to instantiate the queue theorems. -/
def demoJob : FlashJob :=
  { job_id := 1
    filename := "a.jpg"
    dithered_path := "static/images/cache/a.jpg.png"
    flash_twice := false
    rotation_degrees := 0
    status := FlashJobStatus.Queued
    created_at := 0
    started_at := none
    finished_at := none
    error_message := none }

/-- A concrete retained job (finished at time 100) for the queue theorems. -/
def demoDoneJob : FlashJob :=
  { job_id := 2
    filename := "b.jpg"
    dithered_path := "static/images/cache/b.jpg.png"
    flash_twice := true
    rotation_degrees := 90
    status := FlashJobStatus.Completed
    created_at := 0
    started_at := some 50
    finished_at := some 100
    error_message := none }

/-- A concrete queue state: empty slot, one waiting job, one retained job. -/
def demoQueue : FlashQueue :=
  { current_job := none
    queue := [demoJob]
    recent_jobs := [demoDoneJob]
    next_job_id := 3 }

theorem dequeue_spec_witness :
    FlashQueue.dequeue demoQueue 5 = dequeueSpecModel demoQueue 5 ∧
    flashingCount (FlashQueue.dequeue demoQueue 5).2 ≤ 1 :=
  ⟨(dequeue_spec demoQueue 5).1,
    (dequeue_spec demoQueue 5).2 (by decide) (by decide)⟩

theorem find?_append_eq {α : Type} (p : α → Bool) (l₁ l₂ : List α) :
    (l₁ ++ l₂).find? p =
      match l₁.find? p with
      | some a => some a
      | none => l₂.find? p := by
  induction l₁ with
  | nil => simp
  | cons a rest ih =>
      cases h : p a
      · simp only [List.cons_append, List.find?, h]
        exact ih
      · simp [List.find?, h]

theorem mem_pruneRecentList_of_unexpired (now : Nat) (l : List FlashJob)
    (j : FlashJob) (hj : j ∈ l) (hexp : jobExpired now j = false) :
    j ∈ pruneRecentList now l := by
  induction l with
  | nil => cases hj
  | cons a rest ih =>
      rw [pruneRecentList]
      by_cases ha : jobExpired now a
      · rw [if_pos ha]
        rcases List.mem_cons.mp hj with hja | hjr
        · exact absurd (hja ▸ hexp) (by simp [ha])
        · exact ih hjr
      · rw [if_neg ha]
        exact hj

theorem jobExpired_false_of_within (now f : Nat) (j : FlashJob)
    (hf : j.finished_at = some f) (h : now ≤ f + FINISHED_JOB_RETENTION_MS) :
    jobExpired now j = false := by
  rw [jobExpired, hf]
  rw [FINISHED_JOB_RETENTION_MS] at h
  simp only [Bool.and_eq_false_iff, decide_eq_false_iff_not,
    FINISHED_JOB_RETENTION_MS]
  omega

/-- C6: `find_job` returns the first job with the given id in the order
current slot, waiting list, retention list (`none` when absent everywhere);
and `prune_recent_jobs` removes a retained job only when `now` exceeds its
`finished_at` by strictly more than the retention window, so a terminal job
stays findable throughout its window. -/
theorem find_job_spec (q : FlashQueue) (job_id now : Nat) (j : FlashJob)
    (f : Nat) :
    q.find_job job_id = (allJobs q).find? (fun x => x.job_id == job_id) ∧
    (j ∈ q.recent_jobs → j.finished_at = some f →
      now ≤ f + FINISHED_JOB_RETENTION_MS →
      j ∈ (q.prune_recent_jobs now).recent_jobs) := by
  constructor
  · have htail : ∀ m : FlashQueue,
        (match m.queue.find? (fun job => job.job_id == job_id) with
          | some job => some job
          | none => m.recent_jobs.find? (fun job => job.job_id == job_id)) =
        (m.queue ++ m.recent_jobs).find? (fun x => x.job_id == job_id) := by
      intro m
      cases hfind : m.queue.find? (fun job => job.job_id == job_id) with
      | none => simp [find?_append_eq, hfind]
      | some job => simp [find?_append_eq, hfind]
    match hc : q.current_job with
    | none =>
        simp only [FlashQueue.find_job, hc, allJobs, Option.toList_none,
          List.nil_append]
        exact htail q
    | some current =>
        by_cases hid : current.job_id = job_id
        · have hfid : (current.job_id == job_id) = true := by simp [hid]
          simp [FlashQueue.find_job, hc, hid, allJobs, List.find?, hfid]
        · have hfid : (current.job_id == job_id) = false := by simp [hid]
          simp only [FlashQueue.find_job, hc, if_neg hid, allJobs,
            Option.toList_some, List.cons_append, List.find?, hfid]
          exact htail q
  · intro hmem hf hwin
    rw [FlashQueue.prune_recent_jobs]
    exact mem_pruneRecentList_of_unexpired now q.recent_jobs j hmem
      (jobExpired_false_of_within now f j hf hwin)

theorem find_job_spec_witness :
    FlashQueue.find_job demoQueue 2 =
      (allJobs demoQueue).find? (fun x => x.job_id == 2) ∧
    demoDoneJob ∈ (FlashQueue.prune_recent_jobs demoQueue 30050).recent_jobs :=
  ⟨(find_job_spec demoQueue 2 30050 demoDoneJob 100).1,
    (find_job_spec demoQueue 2 30050 demoDoneJob 100).2 (by decide) rfl
      (by decide)⟩

/-- C9: when the current slot is empty, `mark_completed` and `mark_failed`
return with the whole queue state (slot, waiting list, retention list and id
counter) unchanged instead of failing. -/
theorem mark_noop_when_slot_empty (q : FlashQueue) (now : Nat) (error : String)
    (h : q.current_job = none) :
    q.mark_completed now = q ∧ q.mark_failed error now = q := by
  constructor
  · simp [FlashQueue.mark_completed, h]
  · simp [FlashQueue.mark_failed, h]

theorem mark_noop_when_slot_empty_witness :
    FlashQueue.new.mark_completed 7 = FlashQueue.new ∧
    FlashQueue.new.mark_failed "boom" 7 = FlashQueue.new :=
  mark_noop_when_slot_empty FlashQueue.new 7 "boom" rfl

/-! ## Operation traces over the flash queue -/

/-- One call on the shared `FlashQueue`, with the clock reading it observes.
The last four are the read-only queries. -/
inductive QOp where
  | enqueue (filename dithered_path : String) (flash_twice : Bool)
      (rotation_degrees now : Nat)
  | dequeue (now : Nat)
  | mark_completed (now : Nat)
  | mark_failed (error : String) (now : Nat)
  | clear_current_if_finished (now : Nat)
  | prune_recent_jobs (now : Nat)
  | get_position (job_id : Nat)
  | get_current_job
  | get_queued_jobs
  | find_job (job_id : Nat)
deriving DecidableEq

/-- Whether the operation is an `enqueue`. -/
def QOp.isEnqueue : QOp → Bool
  | QOp.enqueue _ _ _ _ _ => true
  | _ => false

/-- Apply one operation to the queue state; an `enqueue` also yields the id
it returned.  The queries return data copies and leave the state untouched. -/
def FlashQueue.step (q : FlashQueue) : QOp → FlashQueue × Option Nat
  | QOp.enqueue f d tw rot now =>
      let r := q.enqueue f d tw rot now
      (r.2, some r.1)
  | QOp.dequeue now => ((q.dequeue now).2, none)
  | QOp.mark_completed now => (q.mark_completed now, none)
  | QOp.mark_failed e now => (q.mark_failed e now, none)
  | QOp.clear_current_if_finished now => (q.clear_current_if_finished now, none)
  | QOp.prune_recent_jobs now => (q.prune_recent_jobs now, none)
  | QOp.get_position _ => (q, none)
  | QOp.get_current_job => (q, none)
  | QOp.get_queued_jobs => (q, none)
  | QOp.find_job _ => (q, none)

/-- Run a sequence of operations, collecting in order the ids returned by
the enqueues among them. -/
def runOps (q : FlashQueue) : List QOp → FlashQueue × List Nat
  | [] => (q, [])
  | op :: rest =>
      let s := q.step op
      let r := runOps s.1 rest
      (r.1,
        match s.2 with
        | some i => i :: r.2
        | none => r.2)

theorem popWaiting_next_job_id (q : FlashQueue) (now : Nat) :
    (q.popWaiting now).2.next_job_id = q.next_job_id := by
  cases hq : q.queue <;> simp [FlashQueue.popWaiting, hq]

theorem dequeue_next_job_id (q : FlashQueue) (now : Nat) :
    (q.dequeue now).2.next_job_id = q.next_job_id := by
  match hc : q.current_job with
  | none => simpa [FlashQueue.dequeue, hc] using popWaiting_next_job_id q now
  | some current =>
      match hs : current.status with
      | FlashJobStatus.Flashing => simp [FlashQueue.dequeue, hc, hs]
      | FlashJobStatus.Queued => simp [FlashQueue.dequeue, hc, hs]
      | FlashJobStatus.Completed =>
          simpa [FlashQueue.dequeue, hc, hs] using popWaiting_next_job_id _ now
      | FlashJobStatus.Failed =>
          simpa [FlashQueue.dequeue, hc, hs] using popWaiting_next_job_id _ now

theorem clear_current_next_job_id (q : FlashQueue) (now : Nat) :
    (q.clear_current_if_finished now).next_job_id = q.next_job_id := by
  rw [FlashQueue.clear_current_if_finished]
  split
  · split
    · split
      · split <;> rfl
      · rfl
    · rfl
  · rfl

theorem step_next_job_id (q : FlashQueue) (op : QOp) :
    (q.step op).1.next_job_id =
      if op.isEnqueue then q.next_job_id + 1 else q.next_job_id := by
  match op with
  | QOp.enqueue f d tw rot now =>
      simp [FlashQueue.step, FlashQueue.enqueue, QOp.isEnqueue]
  | QOp.dequeue now =>
      simpa [FlashQueue.step, QOp.isEnqueue] using dequeue_next_job_id q now
  | QOp.mark_completed now =>
      cases hc : q.current_job <;>
        simp [FlashQueue.step, FlashQueue.mark_completed, QOp.isEnqueue, hc]
  | QOp.mark_failed e now =>
      cases hc : q.current_job <;>
        simp [FlashQueue.step, FlashQueue.mark_failed, QOp.isEnqueue, hc]
  | QOp.clear_current_if_finished now =>
      simpa [FlashQueue.step, QOp.isEnqueue] using
        clear_current_next_job_id q now
  | QOp.prune_recent_jobs now =>
      simp [FlashQueue.step, FlashQueue.prune_recent_jobs, QOp.isEnqueue]
  | QOp.get_position i => simp [FlashQueue.step, QOp.isEnqueue]
  | QOp.get_current_job => simp [FlashQueue.step, QOp.isEnqueue]
  | QOp.get_queued_jobs => simp [FlashQueue.step, QOp.isEnqueue]
  | QOp.find_job i => simp [FlashQueue.step, QOp.isEnqueue]

theorem step_returned_id (q : FlashQueue) (op : QOp) :
    (q.step op).2 = if op.isEnqueue then some q.next_job_id else none := by
  cases op <;> simp [FlashQueue.step, FlashQueue.enqueue, QOp.isEnqueue]

theorem runOps_ids (ops : List QOp) : ∀ q : FlashQueue,
    (runOps q ops).2 = List.range' q.next_job_id (ops.countP QOp.isEnqueue) := by
  induction ops with
  | nil => intro q; simp [runOps]
  | cons op rest ih =>
      intro q
      have hids := step_returned_id q op
      have hnext := step_next_job_id q op
      have hih := ih (q.step op).1
      by_cases hop : op.isEnqueue
      · rw [if_pos hop] at hids hnext
        rw [hnext] at hih
        simp only [runOps, hids, hih, List.countP_cons, hop, if_pos]
        rw [List.range'_succ]
      · rw [if_neg hop] at hids hnext
        rw [hnext] at hih
        simp [runOps, hids, hih, List.countP_cons, hop]

/-- C4: every enqueue returns the id of the job it just appended, and along
any sequence of queue operations starting from the fresh queue the ids
returned by the enqueue calls are exactly `1, 2, 3, …` in order — they start
at 1, each is strictly greater than every earlier one, and none is ever
repeated, no matter what other operations (including evictions from the
retention list) are interleaved. -/
theorem enqueue_ids_spec (ops : List QOp) :
    (∀ (q : FlashQueue) (f d : String) (tw : Bool) (rot now : Nat),
      (q.enqueue f d tw rot now).2.queue.map FlashJob.job_id =
        q.queue.map FlashJob.job_id ++ [(q.enqueue f d tw rot now).1]) ∧
    (runOps FlashQueue.new ops).2 =
      List.range' 1 (ops.countP QOp.isEnqueue) ∧
    (runOps FlashQueue.new ops).2.Pairwise (· < ·) ∧
    (runOps FlashQueue.new ops).2.Nodup := by
  have h := runOps_ids ops FlashQueue.new
  have hnew : FlashQueue.new.next_job_id = 1 := rfl
  rw [hnew] at h
  refine ⟨fun q f d tw rot now => by simp [FlashQueue.enqueue], h, ?_, ?_⟩
  · rw [h]
    exact List.pairwise_lt_range' 1 (ops.countP QOp.isEnqueue)
  · rw [h]
    exact List.nodup_range' 1 (ops.countP QOp.isEnqueue)

/-! ## Region invariant of the flash queue -/

/-- Waiting-list jobs are `Queued` and have not started or finished. -/
def jobWaitingOk (j : FlashJob) : Prop :=
  j.status = FlashJobStatus.Queued ∧ j.started_at = none ∧ j.finished_at = none

/-- Retained jobs are terminal and carry a finish timestamp. -/
def jobRetainedOk (j : FlashJob) : Prop :=
  (j.status = FlashJobStatus.Completed ∨ j.status = FlashJobStatus.Failed) ∧
    j.finished_at ≠ none

/-- A job installed in the current slot is never `Queued` and has started. -/
def jobCurrentOk (j : FlashJob) : Prop :=
  j.status ≠ FlashJobStatus.Queued ∧ j.started_at ≠ none

/-- The region invariant of the claim. -/
def QueueInvariant (q : FlashQueue) : Prop :=
  (∀ j ∈ q.queue, jobWaitingOk j) ∧
  (∀ j ∈ q.recent_jobs, jobRetainedOk j) ∧
  (∀ j ∈ q.current_job.toList, jobCurrentOk j)

/-- Inductive strengthening: a terminal current job also has a finish
timestamp, which `dequeue` needs when moving it to the retention list. -/
def jobCurrentStrong (j : FlashJob) : Prop :=
  jobCurrentOk j ∧
    ((j.status = FlashJobStatus.Completed ∨
        j.status = FlashJobStatus.Failed) → j.finished_at ≠ none)

/-- The strengthened invariant, preserved step by step. -/
def StrongInvariant (q : FlashQueue) : Prop :=
  (∀ j ∈ q.queue, jobWaitingOk j) ∧
  (∀ j ∈ q.recent_jobs, jobRetainedOk j) ∧
  (∀ j ∈ q.current_job.toList, jobCurrentStrong j)

theorem pruneRecentList_subset (now : Nat) (l : List FlashJob) (j : FlashJob)
    (hj : j ∈ pruneRecentList now l) : j ∈ l := by
  induction l with
  | nil => simp [pruneRecentList] at hj
  | cons a rest ih =>
      rw [pruneRecentList] at hj
      by_cases ha : jobExpired now a
      · rw [if_pos ha] at hj
        exact List.mem_cons_of_mem a (ih hj)
      · rwa [if_neg ha] at hj

theorem strong_popWaiting (q : FlashQueue) (now : Nat)
    (h : StrongInvariant q) : StrongInvariant (q.popWaiting now).2 := by
  obtain ⟨hq, hr, hc⟩ := h
  match hqq : q.queue with
  | [] =>
      have heq : (q.popWaiting now).2 = q := by
        simp [FlashQueue.popWaiting, hqq]
      rw [heq]
      exact ⟨hq, hr, hc⟩
  | job :: rest =>
      have hjob : jobWaitingOk job := hq job (by rw [hqq]; exact List.mem_cons_self _ _)
      simp only [FlashQueue.popWaiting, hqq]
      refine ⟨fun j hj => hq j (by rw [hqq]; exact List.mem_cons_of_mem _ hj),
        hr, fun j hj => ?_⟩
      simp only [Option.toList_some, List.mem_singleton] at hj
      subst hj
      refine ⟨⟨by simp, by simp⟩, by simp⟩

theorem strong_dequeue (q : FlashQueue) (now : Nat)
    (h : StrongInvariant q) : StrongInvariant (q.dequeue now).2 := by
  obtain ⟨hq, hr, hc⟩ := h
  match hcur : q.current_job with
  | none =>
      have heq : (q.dequeue now).2 = (q.popWaiting now).2 := by
        simp [FlashQueue.dequeue, hcur]
      rw [heq]
      exact strong_popWaiting q now ⟨hq, hr, hc⟩
  | some current =>
      have hcs : jobCurrentStrong current := hc current (by simp [hcur])
      match hs : current.status with
      | FlashJobStatus.Flashing =>
          have heq : (q.dequeue now).2 = q := by
            simp [FlashQueue.dequeue, hcur, hs]
          rw [heq]
          exact ⟨hq, hr, hc⟩
      | FlashJobStatus.Queued =>
          have heq : (q.dequeue now).2 = q := by
            simp [FlashQueue.dequeue, hcur, hs]
          rw [heq]
          exact ⟨hq, hr, hc⟩
      | FlashJobStatus.Completed =>
          have h' : StrongInvariant
              { q with recent_jobs := q.recent_jobs ++ [current],
                       current_job := none } := by
            refine ⟨fun j hj => hq j hj, fun j hj => ?_, by simp⟩
            rcases List.mem_append.mp hj with hj | hj
            · exact hr j hj
            · rw [List.mem_singleton] at hj
              subst hj
              exact ⟨Or.inl hs, hcs.2 (Or.inl hs)⟩
          have heq : (q.dequeue now).2 =
              (FlashQueue.popWaiting
                { q with recent_jobs := q.recent_jobs ++ [current],
                         current_job := none } now).2 := by
            simp [FlashQueue.dequeue, hcur, hs]
          rw [heq]
          exact strong_popWaiting _ now h'
      | FlashJobStatus.Failed =>
          have h' : StrongInvariant
              { q with recent_jobs := q.recent_jobs ++ [current],
                       current_job := none } := by
            refine ⟨fun j hj => hq j hj, fun j hj => ?_, by simp⟩
            rcases List.mem_append.mp hj with hj | hj
            · exact hr j hj
            · rw [List.mem_singleton] at hj
              subst hj
              exact ⟨Or.inr hs, hcs.2 (Or.inr hs)⟩
          have heq : (q.dequeue now).2 =
              (FlashQueue.popWaiting
                { q with recent_jobs := q.recent_jobs ++ [current],
                         current_job := none } now).2 := by
            simp [FlashQueue.dequeue, hcur, hs]
          rw [heq]
          exact strong_popWaiting _ now h'

theorem strong_mark_completed (q : FlashQueue) (now : Nat)
    (h : StrongInvariant q) : StrongInvariant (q.mark_completed now) := by
  obtain ⟨hq, hr, hc⟩ := h
  match hcur : q.current_job with
  | none =>
      have heq : q.mark_completed now = q := by
        simp [FlashQueue.mark_completed, hcur]
      rw [heq]
      exact ⟨hq, hr, hc⟩
  | some job =>
      have hjs := hc job (by simp [hcur])
      simp only [FlashQueue.mark_completed, hcur]
      refine ⟨hq, hr, fun j hj => ?_⟩
      simp only [Option.toList_some, List.mem_singleton] at hj
      subst hj
      exact ⟨⟨by simp, by simpa using hjs.1.2⟩, by simp⟩

theorem strong_mark_failed (q : FlashQueue) (error : String) (now : Nat)
    (h : StrongInvariant q) : StrongInvariant (q.mark_failed error now) := by
  obtain ⟨hq, hr, hc⟩ := h
  match hcur : q.current_job with
  | none =>
      have heq : q.mark_failed error now = q := by
        simp [FlashQueue.mark_failed, hcur]
      rw [heq]
      exact ⟨hq, hr, hc⟩
  | some job =>
      have hjs := hc job (by simp [hcur])
      simp only [FlashQueue.mark_failed, hcur]
      refine ⟨hq, hr, fun j hj => ?_⟩
      simp only [Option.toList_some, List.mem_singleton] at hj
      subst hj
      exact ⟨⟨by simp, by simpa using hjs.1.2⟩, by simp⟩

theorem strong_prune (q : FlashQueue) (now : Nat)
    (h : StrongInvariant q) : StrongInvariant (q.prune_recent_jobs now) := by
  obtain ⟨hq, hr, hc⟩ := h
  exact ⟨hq,
    fun j hj => hr j (pruneRecentList_subset now q.recent_jobs j hj), hc⟩

theorem strong_clear_current (q : FlashQueue) (now : Nat)
    (h : StrongInvariant q) :
    StrongInvariant (q.clear_current_if_finished now) := by
  have h1 : StrongInvariant (q.prune_recent_jobs now) := strong_prune q now h
  simp only [FlashQueue.clear_current_if_finished]
  split
  · split
    · split
      · split
        · exact ⟨h1.1, h1.2.1, by simp⟩
        · exact h1
      · exact h1
    · exact h1
  · exact h1

theorem strong_step (q : FlashQueue) (op : QOp)
    (h : StrongInvariant q) : StrongInvariant (q.step op).1 := by
  match op with
  | QOp.enqueue f d tw rot now =>
      obtain ⟨hq, hr, hc⟩ := h
      refine ⟨fun j hj => ?_, hr, hc⟩
      simp only [FlashQueue.step, FlashQueue.enqueue] at hj
      rcases List.mem_append.mp hj with hj | hj
      · exact hq j hj
      · rw [List.mem_singleton] at hj
        subst hj
        exact ⟨rfl, rfl, rfl⟩
  | QOp.dequeue now => exact strong_dequeue q now h
  | QOp.mark_completed now => exact strong_mark_completed q now h
  | QOp.mark_failed e now => exact strong_mark_failed q e now h
  | QOp.clear_current_if_finished now => exact strong_clear_current q now h
  | QOp.prune_recent_jobs now => exact strong_prune q now h
  | QOp.get_position i => exact h
  | QOp.get_current_job => exact h
  | QOp.get_queued_jobs => exact h
  | QOp.find_job i => exact h

theorem strong_runOps (ops : List QOp) : ∀ q : FlashQueue,
    StrongInvariant q → StrongInvariant (runOps q ops).1 := by
  induction ops with
  | nil => intro q h; exact h
  | cons op rest ih => intro q h; exact ih _ (strong_step q op h)

/-- C10: along any sequence of queue operations from the fresh queue —
enqueue, dequeue, mark_completed, mark_failed, clear_current_if_finished,
prune and the read-only queries — the region invariant holds: every waiting
job is `Queued` with `started_at` and `finished_at` unset, every retained
job is terminal with `finished_at` set, and a job in the current slot is
never `Queued` and always has `started_at` set. -/
theorem queue_region_invariant (ops : List QOp) :
    QueueInvariant (runOps FlashQueue.new ops).1 := by
  have hnew : StrongInvariant FlashQueue.new := by
    refine ⟨?_, ?_, ?_⟩ <;> simp [FlashQueue.new]
  have h := strong_runOps ops FlashQueue.new hnew
  exact ⟨h.1, h.2.1, fun j hj => (h.2.2 j hj).1⟩

/-! ## Flash worker and external command (`execute_flash`) -/

/-- Outcome of one invocation of the external flash command: either the
spawn itself failed, or the process exited with a success flag, an optional
exit code and captured standard error. -/
inductive FlashRun where
  | spawnFailure (err : String)
  | exited (success : Bool) (code : Option Int) (stderr : String)
deriving DecidableEq

set_option linter.unusedVariables false in
/-- Embeds `execute_flash`, parameterised by the outcomes `run1` and `run2` the two
possible invocations of `/usr/bin/inky-soup-update-display` would produce.
Mirrors the early returns: a spawn failure or non-zero exit of the first
invocation produces its error without consulting `run2`; the second
invocation happens only when `flash_twice` is set and the first succeeded. -/
def execute_flash (dithered_path : String) (flash_twice : Bool)
    (rotation_degrees : Nat) (run1 run2 : FlashRun) : Except String Unit :=
  match run1 with
  | FlashRun.spawnFailure e =>
      Except.error ("Failed to execute script: " ++ e)
  | FlashRun.exited success code stderr =>
      if !success then
        Except.error ("Flash failed (exit code " ++ toString (code.getD (-1)) ++
          "): " ++ stderr.trim)
      else if flash_twice then
        match run2 with
        | FlashRun.spawnFailure e =>
            Except.error ("Failed to execute second flash: " ++ e)
        | FlashRun.exited success2 code2 stderr2 =>
            if !success2 then
              Except.error ("Second flash failed (exit code " ++
                toString (code2.getD (-1)) ++ "): " ++ stderr2.trim)
            else Except.ok ()
      else Except.ok ()

/-- The error text the first invocation contributes, if it fails: the spawn
error or the exit code plus trimmed standard error, in the formats of
`execute_flash`. -/
def firstInvocationError (r : FlashRun) : Option String :=
  match r with
  | FlashRun.spawnFailure e =>
      some ("Failed to execute script: " ++ e)
  | FlashRun.exited success code stderr =>
      if !success then
        some ("Flash failed (exit code " ++ toString (code.getD (-1)) ++
          "): " ++ stderr.trim)
      else none

/-- How `spawn_flash_worker` records the result of `execute_flash` on the
queue before looping on to the next job: `Ok` marks the current job
completed, `Err` marks it failed with the captured message. -/
def workerRecord (q : FlashQueue) (result : Except String Unit) (now : Nat) :
    FlashQueue :=
  match result with
  | Except.ok _ => q.mark_completed now
  | Except.error e => q.mark_failed e now

/-- C7: whenever the first invocation fails (spawn failure or non-zero
exit), `execute_flash` returns an error carrying that invocation's failure
text, the result is independent of the second invocation's outcome even when
`flash_twice` is set (the second run is skipped), and recording the result
marks the current job `Failed` with that message while the worker step
returns normally. -/
theorem execute_flash_first_failure (p : String) (tw : Bool) (rot : Nat)
    (r1 r2 r2' : FlashRun) (q : FlashQueue) (now : Nat) (m : String)
    (c : FlashJob) (hm : firstInvocationError r1 = some m)
    (hc : q.current_job = some c) :
    execute_flash p tw rot r1 r2 = Except.error m ∧
    execute_flash p tw rot r1 r2 = execute_flash p tw rot r1 r2' ∧
    (workerRecord q (execute_flash p tw rot r1 r2) now).current_job =
      some { c with status := FlashJobStatus.Failed,
                    finished_at := some now,
                    error_message := some m } := by
  have herr : ∀ rx : FlashRun, execute_flash p tw rot r1 rx = Except.error m := by
    intro rx
    match r1 with
    | FlashRun.spawnFailure e =>
        simp only [firstInvocationError, Option.some.injEq] at hm
        simp [execute_flash, hm]
    | FlashRun.exited success code stderr =>
        match success with
        | true => simp [firstInvocationError] at hm
        | false =>
            simp only [firstInvocationError, Bool.not_false, if_true,
              Option.some.injEq] at hm
            simp [execute_flash, hm]
  refine ⟨herr r2, (herr r2).trans (herr r2').symm, ?_⟩
  rw [herr r2, workerRecord, FlashQueue.mark_failed, hc]

/-- A concrete queue whose slot holds the demo job mid-flash. -/
def demoBusyQueue : FlashQueue :=
  { demoQueue with current_job := some demoJob }

theorem execute_flash_first_failure_witness :
    execute_flash "static/images/cache/a.jpg.png" true 0
        (FlashRun.spawnFailure "No such file or directory")
        (FlashRun.exited true (some 0) "") =
      Except.error "Failed to execute script: No such file or directory" ∧
    (workerRecord demoBusyQueue
        (execute_flash "static/images/cache/a.jpg.png" true 0
          (FlashRun.spawnFailure "No such file or directory")
          (FlashRun.exited true (some 0) "")) 9).current_job =
      some { demoJob with status := FlashJobStatus.Failed,
                          finished_at := some 9,
                          error_message :=
                            some "Failed to execute script: No such file or directory" } := by
  have h := execute_flash_first_failure "static/images/cache/a.jpg.png" true 0
    (FlashRun.spawnFailure "No such file or directory")
    (FlashRun.exited true (some 0) "")
    (FlashRun.exited false (some 1) "oops") demoBusyQueue 9
    "Failed to execute script: No such file or directory" demoJob
    (by decide) rfl
  exact ⟨h.1, h.2.2⟩

/-! ## Cache worker startup scan (`cache_worker.rs` with `metadata.rs`) -/

/-- The default filter preference (`DEFAULT_FILTER` in `metadata.rs`). -/
def DEFAULT_FILTER : String := "bicubic"

/-- Embeds `is_valid_filter` from `metadata.rs`. -/
def is_valid_filter (filter : String) : Bool :=
  filter == "bicubic" || filter == "lanczos" || filter == "mitchell" ||
    filter == "bilinear" || filter == "nearest"

/-- Embeds `get_filter_for_image`, parameterised by the filter string that
`load_metadata` yields for a filename (that function already substitutes
defaults for missing or unparsable metadata files). -/
def get_filter_for_image (persisted : String → String)
    (filename : String) : String :=
  let f := persisted filename
  if is_valid_filter f then f else DEFAULT_FILTER

/-- One result of `glob("static/images/*")`: a glob error, or a path with
its directory flag, extension and file name as the code queries them. -/
structure ScanEntry where
  path : String
  is_dir : Bool
  extension : Option String
  file_name : Option String
deriving DecidableEq

/-- Embeds `scan_and_repair_caches`, parameterised by the glob results, the
filesystem's existence test on derived-artifact paths, and the persisted
filter preferences; returns, in order, the `CreateCache(path, filter)`
requests it submits on the channel. -/
def scan_and_repair_caches (entries : List (Except String ScanEntry))
    (cacheExists : String → Bool) (persisted : String → String) :
    List (String × String) :=
  match entries with
  | [] => []
  | Except.error _ :: rest =>
      scan_and_repair_caches rest cacheExists persisted
  | Except.ok path :: rest =>
      if path.is_dir || path.extension == some "json" then
        scan_and_repair_caches rest cacheExists persisted
      else
        let filename := path.file_name.getD "unknown"
        let cache_path := "static/images/cache/" ++ filename ++ ".png"
        if !cacheExists cache_path then
          (path.path, get_filter_for_image persisted filename) ::
            scan_and_repair_caches rest cacheExists persisted
        else
          scan_and_repair_caches rest cacheExists persisted

/-- Modelled from the spec: the source resources among the glob results —
readable entries that are neither directories nor `.json` metadata files. -/
def sourceResources (entries : List (Except String ScanEntry)) :
    List ScanEntry :=
  entries.filterMap (fun e =>
    match e with
    | Except.error _ => none
    | Except.ok p =>
        if p.is_dir || p.extension == some "json" then none else some p)

/-- Modelled from the spec: the derived-artifact path of a resource. -/
def derivedArtifactPath (p : ScanEntry) : String :=
  "static/images/cache/" ++ p.file_name.getD "unknown" ++ ".png"

/-- Modelled from the spec: the filter a synthesized request carries — the
resource's persisted preference when it is a recognised filter name,
otherwise the documented default. -/
def requestedFilter (persisted : String → String) (p : ScanEntry) : String :=
  if is_valid_filter (persisted (p.file_name.getD "unknown")) then
    persisted (p.file_name.getD "unknown")
  else DEFAULT_FILTER

theorem sourceResources_error (msg : String)
    (rest : List (Except String ScanEntry)) :
    sourceResources (Except.error msg :: rest) = sourceResources rest := by
  simp [sourceResources]

theorem sourceResources_ok_skip (p : ScanEntry)
    (rest : List (Except String ScanEntry))
    (h : (p.is_dir || p.extension == some "json") = true) :
    sourceResources (Except.ok p :: rest) = sourceResources rest := by
  have h' : p.is_dir = true ∨ p.extension = some "json" := by simpa using h
  simp [sourceResources, h']

theorem sourceResources_ok_keep (p : ScanEntry)
    (rest : List (Except String ScanEntry))
    (h : (p.is_dir || p.extension == some "json") = false) :
    sourceResources (Except.ok p :: rest) = p :: sourceResources rest := by
  have h' : ¬(p.is_dir = true ∨ p.extension = some "json") := by simpa using h
  simp [sourceResources, h']

/-- C8: the startup scan submits exactly one request per source resource
whose derived artifact does not exist — in particular none for resources
whose artifact exists — and each request carries the resource's persisted
filter preference when recognised, else the default; consequently the number
of submitted requests equals the number of missing artifacts. -/
theorem scan_and_repair_spec (entries : List (Except String ScanEntry))
    (cacheExists : String → Bool) (persisted : String → String) :
    scan_and_repair_caches entries cacheExists persisted =
      (sourceResources entries).filterMap (fun p =>
        if cacheExists (derivedArtifactPath p) then none
        else some (p.path, requestedFilter persisted p)) ∧
    (scan_and_repair_caches entries cacheExists persisted).length =
      ((sourceResources entries).filter
        (fun p => !cacheExists (derivedArtifactPath p))).length := by
  have hmain : scan_and_repair_caches entries cacheExists persisted =
      (sourceResources entries).filterMap (fun p =>
        if cacheExists (derivedArtifactPath p) then none
        else some (p.path, requestedFilter persisted p)) := by
    induction entries with
    | nil => rfl
    | cons e rest ih =>
        match e with
        | Except.error msg =>
            simp [scan_and_repair_caches, sourceResources_error, ih]
        | Except.ok p =>
            by_cases hskip : (p.is_dir || p.extension == some "json") = true
            · simp [scan_and_repair_caches, hskip,
                sourceResources_ok_skip p rest hskip, ih]
            · have hskipf : (p.is_dir || p.extension == some "json") = false := by
                simpa using hskip
              by_cases hex : cacheExists (derivedArtifactPath p) = true
              · have hex' : cacheExists ("static/images/cache/" ++
                    p.file_name.getD "unknown" ++ ".png") = true := hex
                simp [scan_and_repair_caches, hskipf,
                  sourceResources_ok_keep p rest hskipf, hex, hex', ih,
                  List.filterMap_cons]
              · have hexf : cacheExists (derivedArtifactPath p) = false := by
                  simpa using hex
                have hex' : cacheExists ("static/images/cache/" ++
                    p.file_name.getD "unknown" ++ ".png") = false := hexf
                simp [scan_and_repair_caches, hskipf,
                  sourceResources_ok_keep p rest hskipf, hexf, hex', ih,
                  List.filterMap_cons, get_filter_for_image, requestedFilter,
                  derivedArtifactPath]
  have hlen : ∀ l : List ScanEntry,
      (l.filterMap (fun p =>
        if cacheExists (derivedArtifactPath p) then none
        else some (p.path, requestedFilter persisted p))).length =
      (l.filter (fun p => !cacheExists (derivedArtifactPath p))).length := by
    intro l
    induction l with
    | nil => rfl
    | cons a rest ih =>
        by_cases ha : cacheExists (derivedArtifactPath a) = true
        · simp [List.filterMap_cons, List.filter_cons, ha, ih]
        · have haf : cacheExists (derivedArtifactPath a) = false := by
            simpa using ha
          simp [List.filterMap_cons, List.filter_cons, haf, ih]
  exact ⟨hmain, by rw [hmain]; exact hlen (sourceResources entries)⟩

end InkySoup
